import Mathlib

/-!
Shallow embedding of the demes demographic-model builder
(src/demes/demes.py): the entity records with their attrs validators,
the DemeGraph builder operations, and the per-deme epoch portion of the
compact serializer. Python numbers are modelled as rationals extended
with a top element standing for float inf; Python exceptions are
modelled by the Err type; a mutating builder method becomes a function
returning the outcome together with the state of the graph at the
moment the method returns or raises, so that partial mutation on
failure is observable.
-/

namespace Demes

/-- Numeric values: rationals extended with positive infinity
(Python float inf, the default deme end time). -/
abbrev V : Type := WithTop ℚ

/-- The Python exception classes raised by the code, with the message
kept for ValueError (the validation failures). -/
inductive Err where
  | valueError : String → Err
  | keyError : Err
  | typeError : Err
  | zeroDivisionError : Err
  | assertionError : Err
  | indexError : Err
deriving DecidableEq

deriving instance DecidableEq for Except

/-- Validator positive: raises ValueError unless 0 < value. -/
def checkPositive (name : String) (v : V) : Except Err Unit :=
  if v ≤ 0 then .error (.valueError (name ++ " must be greater than zero")) else .ok ()

/-- Validator non_negative: raises ValueError if value < 0. -/
def checkNonNegative (name : String) (v : V) : Except Err Unit :=
  if v < 0 then .error (.valueError (name ++ " must be non-negative")) else .ok ()

/-- Validator finite: raises ValueError if math.isinf(value). -/
def checkFinite (name : String) (v : V) : Except Err Unit :=
  if v = ⊤ then .error (.valueError (name ++ " must be finite")) else .ok ()

/-- Validator unit_interval: raises ValueError unless 0 <= value <= 1. -/
def checkUnitInterval (name : String) (v : ℚ) : Except Err Unit :=
  if 0 ≤ v ∧ v ≤ 1 then .ok ()
  else .error (.valueError ("must have 0 <= " ++ name ++ " <= 1"))

/-- Validator optional(non_negative): skipped when the value is None. -/
def checkOptNonNegative (name : String) (v : Option V) : Except Err Unit :=
  match v with
  | none => .ok ()
  | some x => checkNonNegative name x

/-- Validator optional([positive, finite]): skipped when the value is None. -/
def checkOptSize (name : String) (v : Option V) : Except Err Unit :=
  match v with
  | none => .ok ()
  | some x =>
    match checkPositive name x with
    | .error e => .error e
    | .ok _ => checkFinite name x

/-- Epoch record: population size parameters of one deme over one time
interval, backwards in time. end_time, initial_size and final_size may
be unset (None) at construction and are back-filled later. -/
structure Epoch where
  start_time : V
  end_time : Option V
  initial_size : Option V
  final_size : Option V
deriving DecidableEq

/-- A junk epoch used only as the default for list lookups that the
Python code performs unguarded. -/
def defaultEpoch : Epoch := ⟨0, none, none, none⟩

instance : Inhabited Epoch := ⟨defaultEpoch⟩

/-- Epoch construction: attrs field validators in field order, then
attrs post init (at least one size set, start_time < end_time when the
end is set, final_size defaulting to initial_size). -/
def Epoch.make (start_time : V) (end_time initial_size final_size : Option V) :
    Except Err Epoch :=
  match checkNonNegative "start_time" start_time with
  | .error e => .error e
  | .ok _ =>
  match checkFinite "start_time" start_time with
  | .error e => .error e
  | .ok _ =>
  match checkOptNonNegative "end_time" end_time with
  | .error e => .error e
  | .ok _ =>
  match checkOptSize "initial_size" initial_size with
  | .error e => .error e
  | .ok _ =>
  match checkOptSize "final_size" final_size with
  | .error e => .error e
  | .ok _ =>
  if initial_size = none ∧ final_size = none then
    .error (.valueError "must set either initial_size or final_size")
  else
    match end_time with
    | some et =>
      if et ≤ start_time then .error (.valueError "must have start_time < end_time")
      else
        .ok ⟨start_time, end_time, initial_size,
          match final_size with | none => initial_size | some f => some f⟩
    | none =>
      .ok ⟨start_time, none, initial_size,
        match final_size with | none => initial_size | some f => some f⟩

/-- Migration record: a continuous migration rate between two demes,
active from the given time backwards. The rate is a finite float in the
code; it is modelled as a rational. -/
structure Migration where
  source : String
  dest : String
  time : V
  rate : ℚ
deriving DecidableEq

/-- Migration construction: time [non_negative, finite], rate
[non_negative, finite] (finiteness of the rational rate is automatic),
then the post init check source != dest. -/
def Migration.make (source dest : String) (time : V) (rate : ℚ) :
    Except Err Migration :=
  match checkNonNegative "time" time with
  | .error e => .error e
  | .ok _ =>
  match checkFinite "time" time with
  | .error e => .error e
  | .ok _ =>
  if rate < 0 then .error (.valueError "rate must be non-negative")
  else if source = dest then
    .error (.valueError "source and dest cannot be the same deme")
  else .ok ⟨source, dest, time, rate⟩

/-- Pulse record: an instantaneous transfer of ancestry proportion. -/
structure Pulse where
  source : String
  dest : String
  time : V
  proportion : ℚ
deriving DecidableEq

/-- Pulse construction: time [non_negative, finite], proportion
unit_interval, then the post init check source != dest. -/
def Pulse.make (source dest : String) (time : V) (proportion : ℚ) :
    Except Err Pulse :=
  match checkNonNegative "time" time with
  | .error e => .error e
  | .ok _ =>
  match checkFinite "time" time with
  | .error e => .error e
  | .ok _ =>
  match checkUnitInterval "proportion" proportion with
  | .error e => .error e
  | .ok _ =>
  if source = dest then
    .error (.valueError "source and dest cannot be the same deme")
  else .ok ⟨source, dest, time, proportion⟩

/-- Deme record: an identifier, an optional ancestor identifier and the
ordered epoch list. -/
structure Deme where
  id : String
  ancestor : Option String
  epochs : List Epoch
deriving DecidableEq

instance : Inhabited Deme := ⟨⟨"", none, []⟩⟩

/-- Deme construction: the epochs validator (exactly one epoch) and the
post init check that a deme is not its own ancestor. -/
def Deme.make (id : String) (ancestor : Option String) (epochs : List Epoch) :
    Except Err Deme :=
  if epochs.length ≠ 1 then
    .error (.valueError "Deme must be created with exactly one epoch.")
  else if some id = ancestor then
    .error (.valueError "cannot be its own ancestor")
  else .ok ⟨id, ancestor, epochs⟩

/-- Deme.add_epoch: the new epoch must not start before the previous
epoch starts; the new end_time defaults to the previous terminal
end_time, the previous end_time is closed down to the new start_time,
and unset sizes are inherited. The assert on a non-empty epoch list
becomes an AssertionError outcome. -/
def Deme.add_epoch (d : Deme) (epoch : Epoch) : Except Err Deme :=
  match d.epochs.getLast? with
  | none => .error .assertionError
  | some prev =>
    if epoch.start_time < prev.start_time then
      .error (.valueError "epochs must be non overlapping and added in time-increasing order")
    else
      let isz := match epoch.initial_size with
                 | none => prev.final_size
                 | some v => some v
      .ok { d with epochs := d.epochs.dropLast ++
        [{ prev with end_time := some epoch.start_time },
         { epoch with
            end_time := match epoch.end_time with
                        | none => prev.end_time
                        | some v => some v,
            initial_size := isz,
            final_size := match epoch.final_size with
                          | none => isz
                          | some v => some v }] }

/-- Deme.start_time: the start time of the first epoch (the Python code
indexes an always non-empty list; a junk default guards the total
function). -/
def Deme.start_time (d : Deme) : V := (d.epochs.headD defaultEpoch).start_time

/-- Deme.end_time: the end time of the last epoch. -/
def Deme.end_time (d : Deme) : Option V := (d.epochs.getLastD defaultEpoch).end_time

/-- The DemeGraph state: the header fields, the three owned
collections, and the internal id-to-Deme index. The index is an
insertion-ordered association list, updated in place on overwrite,
mirroring a Python dict. -/
structure DemeGraph where
  description : String
  time_units : String
  generation_time : V
  default_Ne : Option V
  doi : Option String
  demes : List Deme
  migrations : List Migration
  pulses : List Pulse
  deme_map : List (String × Deme)
deriving DecidableEq

instance : Inhabited DemeGraph := ⟨⟨"", "", 1, none, none, [], [], [], []⟩⟩

/-- DemeGraph construction: generation_time [positive, finite] and
default_Ne optional([positive, finite]); the collections and the id
index start empty. -/
def DemeGraph.make (description time_units : String) (generation_time : V)
    (default_Ne : Option V) (doi : Option String) : Except Err DemeGraph :=
  match checkPositive "generation_time" generation_time with
  | .error e => .error e
  | .ok _ =>
  match checkFinite "generation_time" generation_time with
  | .error e => .error e
  | .ok _ =>
  match checkOptSize "default_Ne" default_Ne with
  | .error e => .error e
  | .ok _ =>
  .ok ⟨description, time_units, generation_time, default_Ne, doi, [], [], [], []⟩

/-- Dict assignment on the id index: replace the entry in place when
the key is present, append it otherwise. -/
def mapUpdate : List (String × Deme) → String → Deme → List (String × Deme)
  | [], k, v => [(k, v)]
  | (k0, v0) :: rest, k, v =>
    if k0 = k then (k, v) :: rest else (k0, v0) :: mapUpdate rest k v

/-- Dict lookup on the id index. -/
def DemeGraph.find? (g : DemeGraph) (id : String) : Option Deme :=
  g.deme_map.lookup id

/-- Membership test on the id index (the __contains__ method). -/
def DemeGraph.containsDeme (g : DemeGraph) (id : String) : Bool :=
  (g.find? id).isSome

/-- The resolution of an optional value against a fallback optional
(the initial_size = self.default_Ne assignment when initial_size is
None). -/
def resolveNe (initial_size default_Ne : Option V) : Option V :=
  match initial_size with
  | none => default_Ne
  | some v => some v

/-- The resolution of an unset final_size to the resolved initial size
(final_size = initial_size when final_size is None). -/
def orDefault (final_size : Option V) (isz : V) : Option V :=
  match final_size with
  | none => some isz
  | some v => some v

/-- The end-time resolution of DemeGraph.deme: when an ancestor is
given it must exist, and the end time becomes the ancestor's start
time, discarding the supplied end_time. -/
def demeResolveEnd (g : DemeGraph) (ancestor : Option String) (end_time : V) :
    Except Err V :=
  match ancestor with
  | none => .ok end_time
  | some anc =>
    match g.find? anc with
    | none => .error (.valueError (anc ++ " not in deme graph"))
    | some ancDeme => .ok ((ancDeme.epochs.headD defaultEpoch).start_time)

/-- The trailing loop of DemeGraph.deme: add each supplied extra epoch
in order, stopping at the first failure. -/
def demeAddEpochs (d0 : Deme) (epochs : Option (List Epoch)) : Except Err Deme :=
  match epochs with
  | none => .ok d0
  | some eps => eps.foldlM Deme.add_epoch d0

/-- The validation pipeline of DemeGraph.deme, producing the new Deme
record or the first raised error. No graph mutation happens here,
matching the Python method, whose raises all precede its two mutating
statements. -/
def DemeGraph.demeAux (g : DemeGraph) (id : String) (ancestor : Option String)
    (start_time end_time : V) (initial_size final_size : Option V)
    (epochs : Option (List Epoch)) : Except Err Deme :=
  match resolveNe initial_size g.default_Ne with
  | none => .error (.valueError ("must set initial_size for " ++ id))
  | some isz =>
  match demeResolveEnd g ancestor end_time with
  | .error e => .error e
  | .ok et =>
  match Epoch.make start_time (some et) (some isz) (orDefault final_size isz) with
  | .error e => .error e
  | .ok epoch =>
  match Deme.make id ancestor [epoch] with
  | .error e => .error e
  | .ok d0 => demeAddEpochs d0 epochs

/-- DemeGraph.deme: add a deme to the graph. On success the new deme is
registered in the id index (overwriting any entry with the same id) and
appended to the demes list; on failure the graph is unchanged. -/
def DemeGraph.deme (g : DemeGraph) (id : String) (ancestor : Option String)
    (start_time end_time : V) (initial_size final_size : Option V)
    (epochs : Option (List Epoch)) : Except Err Unit × DemeGraph :=
  match g.demeAux id ancestor start_time end_time initial_size final_size epochs with
  | .error e => (.error e, g)
  | .ok d =>
    (.ok (), { g with demes := g.demes ++ [d],
                      deme_map := mapUpdate g.deme_map d.id d })

/-- DemeGraph.check_time_intersection: the pure coexistence-interval
query. Looks up both demes (KeyError when absent; the comparison of a
None end time would be a Python TypeError), computes the interval, and
when a time is supplied validates it against the half-open interval, or
the closed interval when closed is true. -/
def DemeGraph.check_time_intersection (g : DemeGraph) (deme_id1 deme_id2 : String)
    (time : Option V) (closed : Bool) : Except Err (V × V) :=
  match g.find? deme_id1 with
  | none => .error .keyError
  | some deme1 =>
  match g.find? deme_id2 with
  | none => .error .keyError
  | some deme2 =>
  match deme1.end_time, deme2.end_time with
  | some e1, some e2 =>
    let time_lo := max deme1.start_time deme2.start_time
    let time_hi := min e1 e2
    match time with
    | none => .ok (time_lo, time_hi)
    | some t =>
      if (¬ closed ∧ ¬ (time_lo ≤ t ∧ t < time_hi)) ∨
         (closed ∧ ¬ (time_lo ≤ t ∧ t ≤ time_hi)) then
        .error (.valueError "time not in the interval defined by the time-intersection")
      else .ok (time_lo, time_hi)
  | _, _ => .error .typeError

/-- The part of DemeGraph.migration preceding the first append: the
existence checks, the intersection check on the supplied (possibly
None) start_time, the defaulting of an omitted start_time to the lower
coexistence bound, and the construction of the first Migration
record. -/
def DemeGraph.migrationStart (g : DemeGraph) (source dest : String) (rate : ℚ)
    (start_time : Option V) : Except Err Migration :=
  if ¬ g.containsDeme source then .error (.valueError (source ++ " not in deme graph"))
  else if ¬ g.containsDeme dest then .error (.valueError (dest ++ " not in deme graph"))
  else
    match g.check_time_intersection source dest start_time false with
    | .error e => .error e
    | .ok (time_lo, _time_hi) =>
      Migration.make source dest (start_time.getD time_lo) rate

/-- DemeGraph.migration: append a Migration record at the resolved
start time, and, when an end_time is supplied, validate it and append a
second zero-rate record. The end_time validation happens after the
first append, so its failure leaves the first record committed. -/
def DemeGraph.migration (g : DemeGraph) (source dest : String) (rate : ℚ)
    (start_time end_time : Option V) : Except Err Unit × DemeGraph :=
  match g.migrationStart source dest rate start_time with
  | .error e => (.error e, g)
  | .ok m =>
    let g1 := { g with migrations := g.migrations ++ [m] }
    match end_time with
    | none => (.ok (), g1)
    | some et =>
      match g1.check_time_intersection source dest (some et) false with
      | .error e => (.error e, g1)
      | .ok _ =>
        match Migration.make source dest et 0 with
        | .error e => (.error e, g1)
        | .ok m2 => (.ok (), { g1 with migrations := g1.migrations ++ [m2] })

/-- The ordered pairs produced by itertools.permutations(demes, 2):
pairs of elements at distinct positions, in index order. -/
def perms2 (l : List String) : List (String × String) :=
  l.enum.flatMap (fun p => l.enum.filterMap (fun q =>
    if p.1 = q.1 then none else some (p.2, q.2)))

/-- The loop body of symmetric_migration: apply migration to each
ordered pair in turn, stopping at the first failure with the state
reached so far. -/
def migrateAll (g : DemeGraph) (pairs : List (String × String)) (rate : ℚ)
    (start_time end_time : Option V) : Except Err Unit × DemeGraph :=
  match pairs with
  | [] => (.ok (), g)
  | (s, d) :: rest =>
    match g.migration s d rate start_time end_time with
    | (.ok _, g1) => migrateAll g1 rest rate start_time end_time
    | (e, g1) => (e, g1)

/-- DemeGraph.symmetric_migration: requires at least two ids, then adds
a migration for every ordered pair. -/
def DemeGraph.symmetric_migration (g : DemeGraph) (demes : List String) (rate : ℚ)
    (start_time end_time : Option V) : Except Err Unit × DemeGraph :=
  if demes.length < 2 then (.error (.valueError "must specify two or more demes"), g)
  else migrateAll g (perms2 demes) rate start_time end_time

/-- The validation pipeline of DemeGraph.pulse, producing the Pulse
record or the first raised error; all raises in the Python method
precede its single mutating statement. -/
def DemeGraph.pulseAux (g : DemeGraph) (source dest : String) (proportion : ℚ)
    (time : V) : Except Err Pulse :=
  if ¬ g.containsDeme source then .error (.valueError (source ++ " not in deme graph"))
  else if ¬ g.containsDeme dest then .error (.valueError (dest ++ " not in deme graph"))
  else if ((g.find? source).getD default).ancestor = some dest ∨
          ((g.find? dest).getD default).ancestor = some source then
    .error (.valueError (source ++ " and " ++ dest ++ " have ancestor/descendent relation"))
  else
    match g.check_time_intersection source dest (some time) true with
    | .error e => .error e
    | .ok _ => Pulse.make source dest time proportion

/-- DemeGraph.pulse: validate and append one Pulse record; on failure
the graph is unchanged. -/
def DemeGraph.pulse (g : DemeGraph) (source dest : String) (proportion : ℚ)
    (time : V) : Except Err Unit × DemeGraph :=
  match g.pulseAux source dest proportion time with
  | .error e => (.error e, g)
  | .ok p => (.ok (), { g with pulses := g.pulses ++ [p] })

/-- The math.isclose default test with rel_tol one part in a billion
and abs_tol zero, applied to exact rationals. -/
def isclose (a b : ℚ) : Prop :=
  |a - b| ≤ (1 / 1000000000) * max |a| |b|

instance (a b : ℚ) : Decidable (isclose a b) := by
  unfold isclose
  infer_instance

/-- The end_time resolution of DemeGraph.subgraph: the given value, or
the latest ancestor start time (KeyError on an unknown ancestor,
ValueError on an empty ancestor list, as Python max would raise). -/
def DemeGraph.subgraphEndTime (g : DemeGraph) (ancestors : List String)
    (end_time : Option V) : Except Err V :=
  match end_time with
  | some t => .ok t
  | none =>
    match ancestors.mapM g.find? with
    | none => .error .keyError
    | some [] => .error (.valueError "max() arg is an empty sequence")
    | some (d :: ds) =>
      .ok (ds.foldl (fun a x => max a x.start_time) d.start_time)

/-- The pulse-emitting loop of DemeGraph.subgraph. Each step divides
the head proportion by the sum of the remaining proportions (a Python
float division, so a zero remaining mass raises ZeroDivisionError) and
applies DemeGraph.pulse; the loop variable p survives the loop and the
trailing assert p == 1 becomes an AssertionError outcome. A too-short
proportions list would raise IndexError. -/
def subgraphLoop (deme_id : String) (time : V) :
    List String → List ℚ → ℚ → DemeGraph → Except Err Unit × DemeGraph
  | [], _, p, g => if p = 1 then (.ok (), g) else (.error .assertionError, g)
  | _ :: _, [], _, g => (.error .indexError, g)
  | anc :: ancs, p0 :: ps, _, g =>
    let s := p0 + ps.sum
    if s = 0 then (.error .zeroDivisionError, g)
    else
      match g.pulse deme_id anc (p0 / s) time with
      | (.ok _, g1) => subgraphLoop deme_id time ancs ps (p0 / s) g1
      | (e, g1) => (e, g1)

/-- DemeGraph.subgraph: the two aggregate guards, the end_time
resolution, the deme call (with no ancestor), then one pulse per
ancestor at the resolved end time with renormalized proportions. -/
def DemeGraph.subgraph (g : DemeGraph) (deme_id : String) (ancestors : List String)
    (proportions : List ℚ) (start_time : V) (end_time : Option V)
    (initial_size final_size : Option V) (epochs : Option (List Epoch)) :
    Except Err Unit × DemeGraph :=
  if ancestors.length ≠ proportions.length then
    (.error (.valueError "len(ancestors) != len(proportions)"), g)
  else if ¬ isclose proportions.sum 1 then
    (.error (.valueError "proportions must sum to 1"), g)
  else
    match g.subgraphEndTime ancestors end_time with
    | .error e => (.error e, g)
    | .ok t =>
      match g.deme deme_id none start_time t initial_size final_size epochs with
      | (.error e, g1) => (.error e, g1)
      | (.ok _, g1) => subgraphLoop deme_id t ancestors proportions 0 g1

/-- The pulses the subgraph loop emits when it runs to completion:
for the j-th ancestor, the j-th proportion renormalized by the sum of
the proportions from j on. -/
def pulsesOf (deme_id : String) (time : V) :
    List String → List ℚ → List Pulse
  | anc :: ancs, p0 :: ps =>
    ⟨deme_id, anc, time, p0 / (p0 + ps.sum)⟩ :: pulsesOf deme_id time ancs ps
  | _, _ => []

/-- One emitted entry of the epochs sub-list of asdict_compact:
start_time only when positive; only initial_size for a constant-size
epoch; otherwise final_size, plus initial_size when the epoch is first
or last in the list or discontinuous with the previous epoch. -/
structure EpochEntry where
  start_time : Option V
  initial_size : Option (Option V)
  final_size : Option (Option V)
deriving DecidableEq

/-- The entry emitted for the epoch at position j of the full epoch
list (the loop body over enumerate(deme.epochs) in asdict_compact). -/
def epochEntry (all : List Epoch) (j : ℕ) (e : Epoch) : EpochEntry :=
  { start_time := if 0 < e.start_time then some e.start_time else none
  , initial_size :=
      if e.initial_size = e.final_size then some e.initial_size
      else if j = 0 ∨ j = all.length - 1 ∨
              e.initial_size ≠ (all.getD (j - 1) defaultEpoch).final_size then
        some e.initial_size
      else none
  , final_size :=
      if e.initial_size = e.final_size then none else some e.final_size }

/-- The epochs value emitted for one deme by asdict_compact: the entry
list for all epochs with the first entry dropped (its fields are
inlined into the deme entry). -/
def asdictCompactEpochs (d : Deme) : List EpochEntry :=
  ((List.range d.epochs.length).map
    (fun j => epochEntry d.epochs j (d.epochs.getD j defaultEpoch))).drop 1

/-- Strict temporal ordering of every epoch of a deme: start before
end whenever the end is set. -/
def Deme.strictEpochs (d : Deme) : Bool :=
  d.epochs.all (fun e => match e.end_time with
                         | none => true
                         | some t => decide (e.start_time < t))

/-- Contiguity of consecutive epochs: each epoch ends where the next
one starts. -/
def contiguousList : List Epoch → Bool
  | [] => true
  | [_] => true
  | a :: b :: rest => (a.end_time = some b.start_time) && contiguousList (b :: rest)

/-- Contiguity of a deme's epoch list. -/
def Deme.contiguous (d : Deme) : Bool := contiguousList d.epochs

/-- A base graph as produced by the DemeGraph constructor, with
default_Ne = 100. -/
def bg : DemeGraph :=
  ⟨"test", "generations", 1, some ((100:ℚ):V), none, [], [], [], []⟩

/-- A graph with demes A over [0, 10] and B over [0, inf), built by two
deme calls. -/
def gA10B : DemeGraph :=
  (((bg.deme "A" none 0 ((10:ℚ):V) (some 1) none none).2).deme
    "B" none 0 ⊤ (some 1) none none).2

/-- A graph with demes A over [0, 5] and B over [10, inf): the two
demes never coexist. -/
def gA5B10 : DemeGraph :=
  (((bg.deme "A" none 0 ((5:ℚ):V) (some 1) none none).2).deme
    "B" none ((10:ℚ):V) ⊤ (some 1) none none).2

/-- A graph with three coexisting demes A, B, C over [0, inf). -/
def gABC : DemeGraph :=
  ((((bg.deme "A" none 0 ⊤ (some 1) none none).2).deme
    "B" none 0 ⊤ (some 1) none none).2.deme
    "C" none 0 ⊤ (some 1) none none).2

/-- A graph where deme A over [50, inf) is the ancestor of deme B over
[0, 50]. -/
def gAncAB : DemeGraph :=
  (((bg.deme "A" none ((50:ℚ):V) ⊤ (some 1) none none).2).deme
    "B" (some "A") 0 ⊤ (some 1) none none).2

/-- A graph with demes B over [100, inf) and C over [50, inf), used as
the ancestors of a subgraph call. -/
def gBC : DemeGraph :=
  (((bg.deme "B" none ((100:ℚ):V) ⊤ (some 1) none none).2).deme
    "C" none ((50:ℚ):V) ⊤ (some 1) none none).2

/-- The graph bg after one deme call registering id A. -/
def gDup1 : DemeGraph := (bg.deme "A" none 0 ⊤ (some 1) none none).2

/-- The graph gDup1 after a second deme call re-registering id A with a
different size. -/
def gDup2 : DemeGraph := (gDup1.deme "A" none 0 ⊤ (some 2) none none).2

/-- A standalone deme with one epoch over [0, inf), population 1. -/
def dW : Deme := ⟨"A", none, [⟨0, some ⊤, some 1, some 1⟩]⟩

/-- A standalone deme with three finished epochs exercising the compact
emission rules. -/
def dCompact : Deme :=
  ⟨"A", none,
    [⟨0, some ((10:ℚ):V), some 1, some 2⟩,
     ⟨((10:ℚ):V), some ((20:ℚ):V), some 3, some 3⟩,
     ⟨((20:ℚ):V), some ⊤, some 4, some 5⟩]⟩

/-- C1 counterexample: a migration call whose end_time lies outside the
coexistence window of A = [0, 10] and B = [0, inf) raises the
validation error, yet the graph is mutated: the start-time Migration
record was already appended before the end_time check ran, so a failing
builder operation does not always leave the graph unchanged. -/
theorem c1_migration_end_time_partial_commit :
    (gA10B.migration "A" "B" 1 (some ((5:ℚ):V)) (some ((20:ℚ):V))).1 =
      .error (.valueError "time not in the interval defined by the time-intersection")
    ∧ gA10B.migrations = []
    ∧ (gA10B.migration "A" "B" 1 (some ((5:ℚ):V)) (some ((20:ℚ):V))).2.migrations =
      [⟨"A", "B", ((5:ℚ):V), 1⟩]
    ∧ (gA10B.migration "A" "B" 1 (some ((5:ℚ):V)) (some ((20:ℚ):V))).2 ≠ gA10B := by
  decide

/-- C2: evaluation of the code at the failing input. A deme call whose
extra epoch starts exactly at the first epoch start time (0) succeeds,
because add_epoch only rejects strictly decreasing start times, and it
truncates the previous epoch to the degenerate interval [0, 0]: the
resulting graph contains an epoch with start_time equal to end_time,
violating the claimed strict ordering invariant, while contiguity still
holds. -/
theorem c2_equal_start_time_breaks_strictness :
    Epoch.make 0 none (some ((100:ℚ):V)) none =
      .ok ⟨0, none, some ((100:ℚ):V), some ((100:ℚ):V)⟩
    ∧ (bg.deme "A" none 0 ⊤ none none
        (some [⟨0, none, some ((100:ℚ):V), some ((100:ℚ):V)⟩])).1 = .ok ()
    ∧ ((bg.deme "A" none 0 ⊤ none none
        (some [⟨0, none, some ((100:ℚ):V), some ((100:ℚ):V)⟩])).2.demes.headD
          default).epochs =
      [⟨0, some 0, some ((100:ℚ):V), some ((100:ℚ):V)⟩,
       ⟨0, some ⊤, some ((100:ℚ):V), some ((100:ℚ):V)⟩]
    ∧ Deme.contiguous ((bg.deme "A" none 0 ⊤ none none
        (some [⟨0, none, some ((100:ℚ):V), some ((100:ℚ):V)⟩])).2.demes.headD
          default) = true
    ∧ Deme.strictEpochs ((bg.deme "A" none 0 ⊤ none none
        (some [⟨0, none, some ((100:ℚ):V), some ((100:ℚ):V)⟩])).2.demes.headD
          default) = false := by
  decide

/-- C6 counterexample: for demes A = [0, 5] and B = [10, inf), which
never coexist, a migration call with an omitted start_time succeeds and
appends a record at the defaulted start (the coexistence lower bound
10), even though that resolved start time fails the intersection check;
so the resolved start of an omitted start_time is not validated. -/
theorem c6_default_start_time_not_validated :
    (gA5B10.migration "A" "B" 1 none none).1 = .ok ()
    ∧ (gA5B10.migration "A" "B" 1 none none).2.migrations =
      [⟨"A", "B", ((10:ℚ):V), 1⟩]
    ∧ gA5B10.check_time_intersection "A" "B" (some ((10:ℚ):V)) false =
      .error (.valueError "time not in the interval defined by the time-intersection") := by
  decide

/-- C8 counterexample: a subgraph call whose proportions list is [1, 0]
(length matching its two ancestors and summing exactly to 1) raises
ZeroDivisionError at the second ancestor, after emitting the first
pulse: no final renormalized proportion equal to 1 is ever computed for
the last ancestor, so the claimed property fails for this ordering of
the ancestors. -/
theorem c8_zero_proportion_division_error :
    (["B", "C"] : List String).length = ([1, 0] : List ℚ).length
    ∧ isclose ([1, 0] : List ℚ).sum 1
    ∧ (gBC.subgraph "X" ["B", "C"] [1, 0] 0 none (some 1) none none).1 =
      .error .zeroDivisionError
    ∧ (gBC.subgraph "X" ["B", "C"] [1, 0] 0 none (some 1) none none).2.pulses =
      [⟨"X", "B", ((100:ℚ):V), 1⟩] := by
  with_unfolding_all decide

/-- C3: add_epoch on a non-empty deme rejects a new epoch starting
strictly before the previous (last) epoch's start time with a
validation error; otherwise the previous epoch's end_time is set to the
new start_time, an unset end_time inherits the prior terminal end, an
unset initial_size inherits the previous final_size, an unset
final_size defaults to the resolved initial_size, and the epoch is
appended. -/
theorem c3_add_epoch_spec (d : Deme) (e prev : Epoch)
    (h : d.epochs.getLast? = some prev) :
    (e.start_time < prev.start_time →
      d.add_epoch e =
        .error (.valueError "epochs must be non overlapping and added in time-increasing order"))
    ∧ (¬ e.start_time < prev.start_time →
      d.add_epoch e = .ok { d with epochs := d.epochs.dropLast ++
        [{ prev with end_time := some e.start_time },
         { e with
            end_time := match e.end_time with
                        | none => prev.end_time
                        | some v => some v,
            initial_size := match e.initial_size with
                            | none => prev.final_size
                            | some v => some v,
            final_size := match e.final_size with
                          | none => match e.initial_size with
                                    | none => prev.final_size
                                    | some v => some v
                          | some v => some v }] }) := by
  unfold Deme.add_epoch
  rw [h]
  constructor
  · intro hlt
    simp [hlt]
  · intro hge
    simp [hge]

/-- Witness for C3: a concrete successful add_epoch call on a deme with
one epoch over [0, inf), adding an epoch starting at 5: the old epoch
is truncated to [0, 5] and the new epoch inherits the terminal end. -/
theorem c3_add_epoch_witness :
    dW.add_epoch ⟨((5:ℚ):V), none, some 2, none⟩ =
      .ok ⟨"A", none, [⟨0, some ((5:ℚ):V), some 1, some 1⟩,
                       ⟨((5:ℚ):V), some ⊤, some 2, some 2⟩]⟩ :=
  (c3_add_epoch_spec dW ⟨((5:ℚ):V), none, some 2, none⟩ ⟨0, some ⊤, some 1, some 1⟩ rfl).2
    (by decide)

/-- C4: for demes present in the graph with set end times,
check_time_intersection returns the pair of the later start and the
earlier end, raising the validation error exactly when the supplied
time lies outside the half-open coexistence interval, or outside the
closed interval when closed is true. -/
theorem c4_check_time_intersection_spec (g : DemeGraph) (id1 id2 : String)
    (t : Option V) (closed : Bool) (d1 d2 : Deme) (e1 e2 : V)
    (h1 : g.find? id1 = some d1) (h2 : g.find? id2 = some d2)
    (he1 : d1.end_time = some e1) (he2 : d2.end_time = some e2) :
    g.check_time_intersection id1 id2 t closed =
      match t with
      | none => .ok (max d1.start_time d2.start_time, min e1 e2)
      | some time =>
        if (closed = true ∧ (max d1.start_time d2.start_time ≤ time ∧ time ≤ min e1 e2))
           ∨ (closed = false ∧ (max d1.start_time d2.start_time ≤ time ∧ time < min e1 e2)) then
          .ok (max d1.start_time d2.start_time, min e1 e2)
        else .error (.valueError "time not in the interval defined by the time-intersection") := by
  unfold DemeGraph.check_time_intersection
  rw [h1, h2]
  dsimp only
  rw [he1, he2]
  dsimp only
  cases t with
  | none => rfl
  | some time =>
    dsimp only
    cases closed with
    | false =>
      by_cases hc : (max d1.start_time d2.start_time ≤ time ∧ time < min e1 e2)
      · rw [if_neg (by simp [hc]), if_pos (Or.inr ⟨rfl, hc⟩)]
      · rw [if_pos (Or.inl ⟨by simp, hc⟩), if_neg (by
          rintro (⟨habs, _⟩ | ⟨_, hP⟩)
          · exact absurd habs (by simp)
          · exact hc hP)]
    | true =>
      by_cases hc : (max d1.start_time d2.start_time ≤ time ∧ time ≤ min e1 e2)
      · rw [if_neg (by simp [hc]), if_pos (Or.inl ⟨rfl, hc⟩)]
      · rw [if_pos (Or.inr ⟨rfl, hc⟩), if_neg (by
          rintro (⟨_, hP⟩ | ⟨habs, _⟩)
          · exact hc hP
          · exact absurd habs (by simp))]

/-- Witness for C4: the intersection of A = [0, 10] and B = [0, inf)
accepts time 5 and returns the interval bounds (0, 10). -/
theorem c4_witness :
    gA10B.check_time_intersection "A" "B" (some ((5:ℚ):V)) false =
      .ok (0, ((10:ℚ):V)) := by
  have h := c4_check_time_intersection_spec gA10B "A" "B" (some ((5:ℚ):V)) false
    ⟨"A", none, [⟨0, some ((10:ℚ):V), some 1, some 1⟩]⟩
    ⟨"B", none, [⟨0, some ⊤, some 1, some 1⟩]⟩
    ((10:ℚ):V) ⊤ (by decide) (by decide) (by decide) (by decide)
  rw [h]
  decide

/-- Inversion of a successful Pulse construction: the record carries
exactly the supplied fields. -/
lemma pulseMake_ok_inv (s d : String) (t : V) (pr : ℚ) (p : Pulse)
    (h : Pulse.make s d t pr = .ok p) : p = ⟨s, d, t, pr⟩ := by
  unfold Pulse.make at h
  cases h0 : checkNonNegative "time" t <;> rw [h0] at h
  · simp at h
  cases h1 : checkFinite "time" t <;> rw [h1] at h
  · simp at h
  cases h2 : checkUnitInterval "proportion" pr <;> rw [h2] at h
  · simp at h
  by_cases hsd : s = d
  · rw [if_pos hsd] at h
    simp at h
  · rw [if_neg hsd] at h
    simp only [Except.ok.injEq] at h
    exact h.symm

/-- Inversion of a successful pulse validation pipeline: the record is
built from the call arguments and the closed intersection check
passed. -/
lemma pulseAux_ok_inv (g : DemeGraph) (s d : String) (pr : ℚ) (t : V) (p : Pulse)
    (h : g.pulseAux s d pr t = .ok p) :
    p = ⟨s, d, t, pr⟩ ∧ ∃ lohi, g.check_time_intersection s d (some t) true = .ok lohi := by
  unfold DemeGraph.pulseAux at h
  split at h
  · simp at h
  split at h
  · simp at h
  split at h
  · simp at h
  cases hc : g.check_time_intersection s d (some t) true <;> rw [hc] at h
  · simp at h
  · exact ⟨pulseMake_ok_inv s d t pr p h, _, rfl⟩

/-- Inversion of a successful Epoch construction: the record keeps the
supplied start, end and initial size. -/
lemma epochMake_ok_inv (st : V) (et isz fsz : Option V) (ep : Epoch)
    (h : Epoch.make st et isz fsz = .ok ep) :
    ep.start_time = st ∧ ep.end_time = et ∧ ep.initial_size = isz := by
  unfold Epoch.make at h
  cases h0 : checkNonNegative "start_time" st <;> rw [h0] at h
  · simp at h
  cases h1 : checkFinite "start_time" st <;> rw [h1] at h
  · simp at h
  cases h2 : checkOptNonNegative "end_time" et <;> rw [h2] at h
  · simp at h
  cases h3 : checkOptSize "initial_size" isz <;> rw [h3] at h
  · simp at h
  cases h4 : checkOptSize "final_size" fsz <;> rw [h4] at h
  · simp at h
  dsimp only at h
  by_cases hz : isz = none ∧ fsz = none
  · rw [if_pos hz] at h
    simp at h
  · rw [if_neg hz] at h
    cases et with
    | some e0 =>
      by_cases hse : e0 ≤ st
      · simp [hse] at h
      · simp [hse] at h
        rw [← h]
        exact ⟨rfl, rfl, rfl⟩
    | none =>
      simp at h
      rw [← h]
      exact ⟨rfl, rfl, rfl⟩

/-- Inversion of a successful Deme construction: the record carries the
supplied fields. -/
lemma demeMake_ok_inv (id : String) (anc : Option String) (epochs : List Epoch)
    (d : Deme) (h : Deme.make id anc epochs = .ok d) : d = ⟨id, anc, epochs⟩ := by
  unfold Deme.make at h
  split at h
  · simp at h
  split at h
  · simp at h
  simp only [Except.ok.injEq] at h
  exact h.symm

/-- Inversion of a successful deme validation pipeline without extra
epochs: the size resolved against default_Ne, the end time resolved
against the ancestor, the single epoch was built from them, and the
deme record wraps it. -/
lemma demeAux_none_ok_inv (g : DemeGraph) (id : String) (anc : Option String)
    (st et : V) (isz fsz : Option V) (d : Deme)
    (h : g.demeAux id anc st et isz fsz none = .ok d) :
    ∃ iszr et2 ep,
      resolveNe isz g.default_Ne = some iszr
      ∧ demeResolveEnd g anc et = .ok et2
      ∧ Epoch.make st (some et2) (some iszr) (orDefault fsz iszr) = .ok ep
      ∧ d = ⟨id, anc, [ep]⟩ := by
  unfold DemeGraph.demeAux at h
  cases hi : resolveNe isz g.default_Ne <;> rw [hi] at h
  · simp at h
  case some iszr =>
  simp only [] at h
  cases ha : demeResolveEnd g anc et <;> rw [ha] at h
  · simp at h
  case ok et2 =>
  simp only [] at h
  cases hep : Epoch.make st (some et2) (some iszr) (orDefault fsz iszr) <;> rw [hep] at h
  · simp at h
  case ok ep =>
  simp only [] at h
  cases hdm : Deme.make id anc [ep] <;> rw [hdm] at h
  · simp at h
  case ok d0 =>
  simp only [] at h
  unfold demeAddEpochs at h
  simp only [Except.ok.injEq] at h
  exact ⟨iszr, et2, ep, rfl, rfl, hep, h ▸ demeMake_ok_inv id anc [ep] d0 hdm⟩

/-- C1 amended: the builder operations whose validation entirely
precedes their mutation never change the graph on failure: deme, pulse,
and migration without an end_time. (The original claim fails for
migration with an end_time and for subgraph, whose late validations run
after earlier appends; see the counterexample.) -/
theorem c1_no_mutation_on_failure (g : DemeGraph) (id s d : String)
    (anc : Option String) (st et : V) (isz fsz : Option V)
    (eps : Option (List Epoch)) (r pr : ℚ) (t : V) (sto : Option V) :
    (∀ e, (g.deme id anc st et isz fsz eps).1 = .error e →
      (g.deme id anc st et isz fsz eps).2 = g)
    ∧ (∀ e, (g.pulse s d pr t).1 = .error e → (g.pulse s d pr t).2 = g)
    ∧ (∀ e, (g.migration s d r sto none).1 = .error e →
      (g.migration s d r sto none).2 = g) := by
  refine ⟨?_, ?_, ?_⟩
  · intro e he
    unfold DemeGraph.deme at he ⊢
    cases hA : g.demeAux id anc st et isz fsz eps <;> rw [hA] at he <;>
      first | rfl | simp at he
  · intro e he
    unfold DemeGraph.pulse at he ⊢
    cases hA : g.pulseAux s d pr t <;> rw [hA] at he <;>
      first | rfl | simp at he
  · intro e he
    unfold DemeGraph.migration at he ⊢
    cases hA : g.migrationStart s d r sto <;> rw [hA] at he <;>
      first | rfl | simp at he

/-- Witness for C1: a pulse call naming an unknown deme on the base
graph fails and leaves the graph unchanged. -/
theorem c1_witness :
    (bg.pulse "X" "Y" 0 0).1 = .error (.valueError "X not in deme graph")
    ∧ (bg.pulse "X" "Y" 0 0).2 = bg :=
  ⟨by decide,
   (c1_no_mutation_on_failure bg "A" "X" "Y" none 0 0 none none none 0 0 0 none).2.1
     (.valueError "X not in deme graph") (by decide)⟩


/-- C7: pulse requires both demes to exist, rejects pairs in a direct
ancestor/descendant relation, validates the time against the closed
coexistence interval, and on success appends exactly one Pulse record
(the graph is unchanged on every failure). -/
theorem c7_pulse_spec (g : DemeGraph) (s d : String) (pr : ℚ) (t : V) :
    ((g.containsDeme s = false ∨ g.containsDeme d = false) →
      (∃ msg, (g.pulse s d pr t).1 = .error (.valueError msg))
      ∧ (g.pulse s d pr t).2 = g)
    ∧ (∀ ds dd, g.find? s = some ds → g.find? d = some dd →
        (ds.ancestor = some d ∨ dd.ancestor = some s) →
        (g.pulse s d pr t).1 =
          .error (.valueError (s ++ " and " ++ d ++ " have ancestor/descendent relation"))
        ∧ (g.pulse s d pr t).2 = g)
    ∧ (∀ e, g.containsDeme s = true → g.containsDeme d = true →
        ¬ (((g.find? s).getD default).ancestor = some d ∨
           ((g.find? d).getD default).ancestor = some s) →
        g.check_time_intersection s d (some t) true = .error e →
        (g.pulse s d pr t).1 = .error e ∧ (g.pulse s d pr t).2 = g)
    ∧ (∀ g2, g.pulse s d pr t = (.ok (), g2) →
        g2 = { g with pulses := g.pulses ++ [⟨s, d, t, pr⟩] }
        ∧ ∃ lohi, g.check_time_intersection s d (some t) true = .ok lohi) := by
  refine ⟨?_, ?_, ?_, ?_⟩
  · intro hc
    by_cases hs : g.containsDeme s
    · have hd : g.containsDeme d = false := by
        rcases hc with h | h
        · rw [hs] at h
          exact absurd h (by simp)
        · exact h
      unfold DemeGraph.pulse DemeGraph.pulseAux
      rw [if_neg (by simp [hs]), if_pos (by simp [hd])]
      exact ⟨⟨_, rfl⟩, rfl⟩
    · unfold DemeGraph.pulse DemeGraph.pulseAux
      rw [if_pos (by simpa using hs)]
      exact ⟨⟨_, rfl⟩, rfl⟩
  · intro ds dd hds hdd hrel
    unfold DemeGraph.pulse DemeGraph.pulseAux
    rw [if_neg (by simp [DemeGraph.containsDeme, hds]),
        if_neg (by simp [DemeGraph.containsDeme, hdd]),
        if_pos (by rw [hds, hdd]; exact hrel)]
    exact ⟨rfl, rfl⟩
  · intro e hs hd hrel hcheck
    unfold DemeGraph.pulse DemeGraph.pulseAux
    rw [if_neg (by simp [hs]), if_neg (by simp [hd]), if_neg hrel, hcheck]
    exact ⟨rfl, rfl⟩
  · intro g2 hok
    unfold DemeGraph.pulse at hok
    cases hA : g.pulseAux s d pr t <;> rw [hA] at hok
    · simp at hok
    · obtain ⟨hp, lohi, hc⟩ := pulseAux_ok_inv g s d pr t _ hA
      simp only [Prod.mk.injEq] at hok
      refine ⟨?_, lohi, hc⟩
      rw [← hok.2, hp]

/-- Witness for C7: in gAncAB deme A is the ancestor of deme B, and the
pulse call between them fails with the relation error, leaving the
graph unchanged. -/
theorem c7_witness :
    (gAncAB.pulse "A" "B" (3/10) ((100:ℚ):V)).1 =
      .error (.valueError "A and B have ancestor/descendent relation")
    ∧ (gAncAB.pulse "A" "B" (3/10) ((100:ℚ):V)).2 = gAncAB :=
  (c7_pulse_spec gAncAB "A" "B" (3/10) ((100:ℚ):V)).2.1
    ⟨"A", none, [⟨((50:ℚ):V), some ⊤, some 1, some 1⟩]⟩
    ⟨"B", some "A", [⟨0, some ((50:ℚ):V), some 1, some 1⟩]⟩
    (by decide) (by decide) (by decide)

/-- C10 counterexample: two successful deme calls with the same id
leave two entries with id A in the demes list, so the list does not
contain each deme id at most once; the id index however was overwritten
and lookup yields the most recently registered deme (the one with
initial size 2). -/
theorem c10_duplicate_id_in_demes_list :
    (bg.deme "A" none 0 ⊤ (some 1) none none).1 = .ok ()
    ∧ (gDup1.deme "A" none 0 ⊤ (some 2) none none).1 = .ok ()
    ∧ gDup2.demes.map Deme.id = ["A", "A"]
    ∧ (gDup2.find? "A").map (fun d => (d.epochs.headD defaultEpoch).initial_size) =
      some (some ((2:ℚ):V)) := by
  decide


/-- C5: the deme builder resolves an omitted initial_size from
default_Ne (the new deme's first epoch then carries that size), fails
when the size is still unresolved, fails when a supplied ancestor is
absent from the graph, and forces the new deme's end time to the
ancestor's start time regardless of the supplied end_time. The extra
epochs argument is none throughout, matching the resolution behaviour
under scrutiny before any extra epochs are appended. -/

theorem c5_deme_spec (g : DemeGraph) (id : String) (anc : Option String)
    (st et : V) (isz fsz : Option V) :
    (∀ N g2, g.default_Ne = some N →
      g.deme id anc st et none fsz none = (.ok (), g2) →
      ∃ d, g2.demes = g.demes ++ [d]
        ∧ (d.epochs.headD defaultEpoch).initial_size = some N)
    ∧ (isz = none → g.default_Ne = none →
      (g.deme id anc st et isz fsz none).1 =
        .error (.valueError ("must set initial_size for " ++ id)))
    ∧ (∀ a, anc = some a → g.find? a = none →
      (isz ≠ none ∨ g.default_Ne ≠ none) →
      (g.deme id anc st et isz fsz none).1 =
        .error (.valueError (a ++ " not in deme graph")))
    ∧ (∀ a ad g2, anc = some a → g.find? a = some ad →
      g.deme id anc st et isz fsz none = (.ok (), g2) →
      ∃ d, g2.demes = g.demes ++ [d]
        ∧ d.end_time = some ((ad.epochs.headD defaultEpoch).start_time)) := by
  refine ⟨?_, ?_, ?_, ?_⟩
  · intro N g2 hNe hok
    unfold DemeGraph.deme at hok
    cases hA : g.demeAux id anc st et none fsz none <;> rw [hA] at hok
    · simp at hok
    case ok dnew =>
    obtain ⟨iszr, et2, ep, hi, ha, hep, hd⟩ :=
      demeAux_none_ok_inv g id anc st et none fsz dnew hA
    have hi2 : g.default_Ne = some iszr := hi
    rw [hNe] at hi2
    have hiszr : iszr = N := by
      injection hi2 with h2
      exact h2.symm
    simp only [Prod.mk.injEq] at hok
    refine ⟨dnew, by rw [← hok.2], ?_⟩
    rw [hd]
    simp only [List.headD_cons]
    rw [(epochMake_ok_inv st (some et2) (some iszr) (orDefault fsz iszr) ep hep).2.2, hiszr]
  · intro hisz hNe
    subst hisz
    unfold DemeGraph.deme DemeGraph.demeAux
    have hre : resolveNe none g.default_Ne = none := by
      unfold resolveNe
      exact hNe
    rw [hre]
  · intro a ha hf hres
    subst ha
    obtain ⟨iszr, hiszr⟩ : ∃ iszr, resolveNe isz g.default_Ne = some iszr := by
      cases isz with
      | none =>
        rcases hres with h | h
        · exact absurd rfl h
        · cases hNe2 : g.default_Ne with
          | none => exact absurd hNe2 h
          | some N => exact ⟨N, rfl⟩
      | some v => exact ⟨v, rfl⟩
    have hre : demeResolveEnd g (some a) et =
        Except.error (Err.valueError (a ++ " not in deme graph")) := by
      rw [show demeResolveEnd g (some a) et = (match g.find? a with
          | none => Except.error (Err.valueError (a ++ " not in deme graph"))
          | some ancDeme =>
            Except.ok ((ancDeme.epochs.headD defaultEpoch).start_time) : Except Err V)
        from rfl, hf]
    unfold DemeGraph.deme DemeGraph.demeAux
    rw [hiszr, hre]
  · intro a ad g2 ha hf hok
    subst ha
    unfold DemeGraph.deme at hok
    cases hA : g.demeAux id (some a) st et isz fsz none <;> rw [hA] at hok
    · simp at hok
    case ok dnew =>
    obtain ⟨iszr, et2, ep, hi, ha2, hep, hd⟩ :=
      demeAux_none_ok_inv g id (some a) st et isz fsz dnew hA
    have ha3 : (match g.find? a with
        | none => Except.error (Err.valueError (a ++ " not in deme graph"))
        | some ancDeme =>
          Except.ok ((ancDeme.epochs.headD defaultEpoch).start_time) : Except Err V) =
        .ok et2 := ha2
    rw [hf] at ha3
    simp only [Except.ok.injEq] at ha3
    simp only [Prod.mk.injEq] at hok
    refine ⟨dnew, by rw [← hok.2], ?_⟩
    rw [hd]
    unfold Deme.end_time
    simp only [List.getLastD_cons, List.getLastD_nil]
    rw [(epochMake_ok_inv st (some et2) (some iszr) (orDefault fsz iszr) ep hep).2.1, ← ha3]

/-- Witness for C5: on the base graph with default_Ne = 100, a deme
call without initial_size succeeds and the deme's first epoch has
initial size 100. -/
theorem c5_witness :
    ∃ d, (bg.deme "A" none 0 ⊤ none none none).2.demes = bg.demes ++ [d]
      ∧ (d.epochs.headD defaultEpoch).initial_size = some ((100:ℚ):V) :=
  (c5_deme_spec bg "A" none 0 ⊤ none none).1 ((100:ℚ):V)
    (bg.deme "A" none 0 ⊤ none none none).2 rfl (by decide)



/-- Dict lookup after an update at the same key yields the new value. -/
lemma lookup_mapUpdate_self (m : List (String × Deme)) (k : String) (v : Deme) :
    (mapUpdate m k v).lookup k = some v := by
  induction m with
  | nil => simp [mapUpdate, List.lookup]
  | cons hd tl ih =>
    obtain ⟨k0, v0⟩ := hd
    unfold mapUpdate
    by_cases hk : k0 = k
    · rw [if_pos hk]
      simp [List.lookup]
    · rw [if_neg hk]
      have hk2 : (k == k0) = false := beq_eq_false_iff_ne.mpr (Ne.symm hk)
      simp [List.lookup, hk2]
      exact ih

/-- The keys after an update are the old keys together with the updated
key. -/
lemma keys_mapUpdate (m : List (String × Deme)) (k : String) (v : Deme) (x : String) :
    x ∈ (mapUpdate m k v).map Prod.fst ↔ x ∈ m.map Prod.fst ∨ x = k := by
  induction m with
  | nil => simp [mapUpdate]
  | cons hd tl ih =>
    obtain ⟨k0, v0⟩ := hd
    unfold mapUpdate
    by_cases hk : k0 = k
    · rw [if_pos hk]
      subst hk
      simp
      tauto
    · rw [if_neg hk]
      simp [ih]
      tauto

/-- A dict update preserves distinctness of the keys. -/
lemma nodup_mapUpdate (m : List (String × Deme)) (k : String) (v : Deme)
    (h : (m.map Prod.fst).Nodup) : ((mapUpdate m k v).map Prod.fst).Nodup := by
  induction m with
  | nil => simp [mapUpdate]
  | cons hd tl ih =>
    obtain ⟨k0, v0⟩ := hd
    simp only [List.map_cons, List.nodup_cons] at h
    unfold mapUpdate
    by_cases hk : k0 = k
    · rw [if_pos hk]
      subst hk
      simp only [List.map_cons, List.nodup_cons]
      exact h
    · rw [if_neg hk]
      simp only [List.map_cons, List.nodup_cons]
      refine ⟨?_, ih h.2⟩
      intro hmem
      rw [keys_mapUpdate] at hmem
      rcases hmem with hm | hm
      · exact h.1 hm
      · exact hk hm

/-- add_epoch never changes the deme identifier. -/
lemma add_epoch_id (d : Deme) (e : Epoch) (d2 : Deme) (h : d.add_epoch e = .ok d2) :
    d2.id = d.id := by
  unfold Deme.add_epoch at h
  cases hL : d.epochs.getLast? <;> rw [hL] at h
  · simp at h
  case some prev =>
  simp only [] at h
  by_cases hlt : e.start_time < prev.start_time
  · rw [if_pos hlt] at h
    simp at h
  · rw [if_neg hlt] at h
    simp only [Except.ok.injEq] at h
    rw [← h]

/-- A successful chain of add_epoch calls never changes the deme
identifier. -/
lemma foldlM_add_epoch_id (eps : List Epoch) : ∀ (d0 d2 : Deme),
    eps.foldlM Deme.add_epoch d0 = .ok d2 → d2.id = d0.id := by
  induction eps with
  | nil =>
    intro d0 d2 h
    have h2 : (Except.ok d0 : Except Err Deme) = Except.ok d2 := h
    simp only [Except.ok.injEq] at h2
    rw [← h2]
  | cons e rest ih =>
    intro d0 d2 h
    rw [List.foldlM_cons] at h
    cases hA : d0.add_epoch e <;> rw [hA] at h
    case error err =>
      have h2 : (Except.error err : Except Err Deme) = Except.ok d2 := h
      simp at h2
    case ok d1 =>
      have h2 : rest.foldlM Deme.add_epoch d1 = Except.ok d2 := h
      rw [ih d1 d2 h2]
      exact add_epoch_id d0 e d1 hA

/-- The deme produced by a successful deme validation pipeline carries
the requested id. -/
lemma demeAux_ok_id (g : DemeGraph) (id : String) (anc : Option String)
    (st et : V) (isz fsz : Option V) (eps : Option (List Epoch)) (d : Deme)
    (h : g.demeAux id anc st et isz fsz eps = .ok d) : d.id = id := by
  unfold DemeGraph.demeAux at h
  cases hi : resolveNe isz g.default_Ne <;> rw [hi] at h
  · simp at h
  case some iszr =>
  simp only [] at h
  cases ha : demeResolveEnd g anc et <;> rw [ha] at h
  · simp at h
  case ok et2 =>
  simp only [] at h
  cases hep : Epoch.make st (some et2) (some iszr) (orDefault fsz iszr) <;> rw [hep] at h
  · simp at h
  case ok ep =>
  simp only [] at h
  cases hdm : Deme.make id anc [ep] <;> rw [hdm] at h
  · simp at h
  case ok d0 =>
  simp only [] at h
  have hid0 : d0.id = id := by rw [demeMake_ok_inv id anc [ep] d0 hdm]
  unfold demeAddEpochs at h
  cases eps with
  | none =>
    simp only [Except.ok.injEq] at h
    rw [← h]
    exact hid0
  | some l =>
    rw [foldlM_add_epoch_id l d0 d h]
    exact hid0

/-- C10 amended: every successful deme call appends the new deme to the
demes list and overwrites the id-index entry for its id, so a lookup
yields the most recently registered deme and the index keys stay
distinct; the demes list itself however accumulates duplicates (see the
counterexample), so only the index, not the list, is unique by id. -/
theorem c10_index_spec (g : DemeGraph) (id : String) (anc : Option String)
    (st et : V) (isz fsz : Option V) (eps : Option (List Epoch)) (g2 : DemeGraph)
    (h : g.deme id anc st et isz fsz eps = (.ok (), g2)) :
    ∃ d, d.id = id ∧ g2.demes = g.demes ++ [d]
      ∧ g2.deme_map = mapUpdate g.deme_map id d
      ∧ g2.deme_map.lookup id = some d
      ∧ ((g.deme_map.map Prod.fst).Nodup → (g2.deme_map.map Prod.fst).Nodup) := by
  unfold DemeGraph.deme at h
  cases hA : g.demeAux id anc st et isz fsz eps <;> rw [hA] at h
  · simp at h
  case ok d =>
  have hid := demeAux_ok_id g id anc st et isz fsz eps d hA
  simp only [Prod.mk.injEq] at h
  refine ⟨d, hid, ?_, ?_, ?_, ?_⟩
  · rw [← h.2]
  · rw [← h.2]
    dsimp only
    rw [hid]
  · rw [← h.2]
    dsimp only
    rw [hid]
    exact lookup_mapUpdate_self g.deme_map id d
  · intro hnd
    rw [← h.2]
    dsimp only
    exact nodup_mapUpdate g.deme_map d.id d hnd

/-- Witness for C10: the second registering of id A on gDup1 appends
the new deme and overwrites the index entry. -/
theorem c10_index_witness :
    ∃ d, d.id = "A" ∧ gDup2.demes = gDup1.demes ++ [d]
      ∧ gDup2.deme_map = mapUpdate gDup1.deme_map "A" d
      ∧ gDup2.deme_map.lookup "A" = some d
      ∧ ((gDup1.deme_map.map Prod.fst).Nodup → (gDup2.deme_map.map Prod.fst).Nodup) :=
  c10_index_spec gDup1 "A" none 0 ⊤ (some 2) none none gDup2 (by decide)

/-- Inversion of a successful Migration construction: the record
carries exactly the supplied fields. -/
lemma migrationMake_ok_inv (s d : String) (t : V) (r : ℚ) (m : Migration)
    (h : Migration.make s d t r = .ok m) : m = ⟨s, d, t, r⟩ := by
  unfold Migration.make at h
  cases h0 : checkNonNegative "time" t <;> rw [h0] at h
  · simp at h
  cases h1 : checkFinite "time" t <;> rw [h1] at h
  · simp at h
  dsimp only at h
  by_cases h2 : r < 0
  · rw [if_pos h2] at h
    simp at h
  · rw [if_neg h2] at h
    by_cases h3 : s = d
    · rw [if_pos h3] at h
      simp at h
    · rw [if_neg h3] at h
      simp only [Except.ok.injEq] at h
      exact h.symm

/-- Inversion of a successful intersection check: the same pair is
returned by the time-free query, and a supplied time lies in the
half-open (closed = false) or closed (closed = true) interval. -/
lemma check_ok_inv (g : DemeGraph) (i1 i2 : String) (t : Option V) (c : Bool)
    (lo hi : V) (h : g.check_time_intersection i1 i2 t c = .ok (lo, hi)) :
    g.check_time_intersection i1 i2 none c = .ok (lo, hi)
    ∧ (∀ t0, t = some t0 →
        (c = false → lo ≤ t0 ∧ t0 < hi) ∧ (c = true → lo ≤ t0 ∧ t0 ≤ hi)) := by
  unfold DemeGraph.check_time_intersection at h ⊢
  cases hf1 : g.find? i1 <;> rw [hf1] at h
  · simp at h
  case some d1 =>
  simp only [] at h
  cases hf2 : g.find? i2 <;> rw [hf2] at h
  · simp at h
  case some d2 =>
  simp only [] at h
  cases he1 : d1.end_time <;> rw [he1] at h
  case none =>
    cases he2 : d2.end_time <;> rw [he2] at h <;> simp at h
  case some e1 =>
  cases he2 : d2.end_time <;> rw [he2] at h
  · simp at h
  case some e2 =>
  simp only [] at h
  cases t with
  | none =>
    simp only [Except.ok.injEq, Prod.mk.injEq] at h
    refine ⟨?_, fun t0 habs => absurd habs (by simp)⟩
    simp only []
    rw [he1, he2]
    simp only []
    rw [h.1, h.2]
  | some t0 =>
    simp only [] at h
    by_cases hcnd : (¬ c = true ∧ ¬ (max d1.start_time d2.start_time ≤ t0 ∧ t0 < min e1 e2))
        ∨ (c = true ∧ ¬ (max d1.start_time d2.start_time ≤ t0 ∧ t0 ≤ min e1 e2))
    · rw [if_pos hcnd] at h
      simp at h
    · rw [if_neg hcnd] at h
      simp only [Except.ok.injEq, Prod.mk.injEq] at h
      refine ⟨?_, ?_⟩
      · simp only []
        rw [he1, he2]
        simp only []
        rw [h.1, h.2]
      intro t1 heq
      have ht1 : t1 = t0 := by
        injection heq with h2
        exact h2.symm
      subst ht1
      rw [← h.1, ← h.2]
      cases c with
      | false =>
        refine ⟨fun _ => ?_, fun habs => absurd habs (by simp)⟩
        by_cases hP : (max d1.start_time d2.start_time ≤ t1 ∧ t1 < min e1 e2)
        · exact hP
        · exact absurd (Or.inl ⟨by simp, hP⟩) hcnd
      | true =>
        refine ⟨fun habs => absurd habs (by simp), fun _ => ?_⟩
        by_cases hP : (max d1.start_time d2.start_time ≤ t1 ∧ t1 ≤ min e1 e2)
        · exact hP
        · exact absurd (Or.inr ⟨rfl, hP⟩) hcnd

/-- Inversion of the pre-append part of migration: both demes exist,
the intersection check passed on the supplied start time, and the
record carries the resolved start (the coexistence lower bound when the
start was omitted). -/
lemma migrationStart_ok_inv (g : DemeGraph) (s d : String) (r : ℚ)
    (st : Option V) (m : Migration) (h : g.migrationStart s d r st = .ok m) :
    ∃ lo hi, g.check_time_intersection s d none false = .ok (lo, hi)
      ∧ m = ⟨s, d, st.getD lo, r⟩
      ∧ (∀ t0, st = some t0 → lo ≤ t0 ∧ t0 < hi) := by
  unfold DemeGraph.migrationStart at h
  split at h
  · simp at h
  split at h
  · simp at h
  cases hc : g.check_time_intersection s d st false <;> rw [hc] at h
  · simp at h
  case ok lohi =>
  obtain ⟨lo, hi⟩ := lohi
  obtain ⟨hnone, hbounds⟩ := check_ok_inv g s d st false lo hi hc
  exact ⟨lo, hi, hnone, migrationMake_ok_inv s d (st.getD lo) r m h,
    fun t0 ht0 => ((hbounds t0 ht0).1 rfl)⟩


/-- C6 amended: migration requires both demes to exist; on success it
appends one record at the resolved start time (the supplied value, or
the coexistence lower bound when omitted) with the given rate, plus a
zero-rate record at end_time iff an end_time was supplied; a supplied
start_time or end_time is validated against the half-open coexistence
window. An omitted start_time is NOT validated (see the counterexample:
the check receives no time then). symmetric_migration rejects fewer
than two ids, and over the three coexisting demes of gABC it appends
exactly 6 records. -/
theorem c6_migration_spec (g : DemeGraph) (s d : String) (r : ℚ)
    (st et : Option V) (l : List String) :
    ((g.containsDeme s = false ∨ g.containsDeme d = false) →
      (∃ msg, (g.migration s d r st et).1 = .error (.valueError msg))
      ∧ (g.migration s d r st et).2 = g)
    ∧ (∀ g2, g.migration s d r st et = (.ok (), g2) →
      ∃ lo hi, g.check_time_intersection s d none false = .ok (lo, hi)
        ∧ g2.migrations = g.migrations ++ (⟨s, d, st.getD lo, r⟩ ::
            (match et with | none => [] | some e2 => [⟨s, d, e2, 0⟩]))
        ∧ (∀ t0, st = some t0 → lo ≤ t0 ∧ t0 < hi)
        ∧ (∀ e2, et = some e2 → lo ≤ e2 ∧ e2 < hi))
    ∧ (l.length < 2 →
      g.symmetric_migration l r st et =
        (.error (.valueError "must specify two or more demes"), g))
    ∧ ((gABC.symmetric_migration ["A", "B", "C"] (1/100000) none none).1 = .ok ()
      ∧ (gABC.symmetric_migration ["A", "B", "C"] (1/100000) none none).2.migrations.length = 6) := by
  refine ⟨?_, ?_, ?_, by with_unfolding_all decide⟩
  · intro hc
    by_cases hs : g.containsDeme s
    · have hd : g.containsDeme d = false := by
        rcases hc with h | h
        · rw [hs] at h
          exact absurd h (by simp)
        · exact h
      unfold DemeGraph.migration DemeGraph.migrationStart
      rw [if_neg (by simp [hs]), if_pos (by simp [hd])]
      exact ⟨⟨_, rfl⟩, rfl⟩
    · unfold DemeGraph.migration DemeGraph.migrationStart
      rw [if_pos (by simpa using hs)]
      exact ⟨⟨_, rfl⟩, rfl⟩
  · intro g2 hok
    unfold DemeGraph.migration at hok
    cases hM : g.migrationStart s d r st <;> rw [hM] at hok
    · simp at hok
    case ok m =>
    simp only [] at hok
    obtain ⟨lo, hi, hnone, hm, hbounds⟩ := migrationStart_ok_inv g s d r st m hM
    cases et with
    | none =>
      simp only [Prod.mk.injEq] at hok
      refine ⟨lo, hi, hnone, ?_, hbounds, fun e2 habs => absurd habs (by simp)⟩
      rw [← hok.2, hm]
    | some e2 =>
      simp only [] at hok
      have hg1 : ({ g with migrations := g.migrations ++ [m] } :
          DemeGraph).check_time_intersection s d (some e2) false =
          g.check_time_intersection s d (some e2) false := rfl
      cases hc2 : g.check_time_intersection s d (some e2) false
      case error err =>
        rw [hg1, hc2] at hok
        simp at hok
      case ok lohi2 =>
      obtain ⟨lo2, hi2⟩ := lohi2
      rw [hg1, hc2] at hok
      simp only [] at hok
      cases hm2 : Migration.make s d e2 0 <;> rw [hm2] at hok
      · simp at hok
      case ok m2 =>
      simp only [Prod.mk.injEq] at hok
      obtain ⟨hnone2, hbounds2⟩ := check_ok_inv g s d (some e2) false lo2 hi2 hc2
      have hpair : lo2 = lo ∧ hi2 = hi := by
        rw [hnone] at hnone2
        simp only [Except.ok.injEq, Prod.mk.injEq] at hnone2
        exact ⟨hnone2.1.symm, hnone2.2.symm⟩
      refine ⟨lo, hi, hnone, ?_, hbounds, ?_⟩
      · rw [← hok.2, hm, migrationMake_ok_inv s d e2 0 m2 hm2]
        simp
      · intro e3 he3
        have he32 : e3 = e2 := by
          injection he3 with h2
          exact h2.symm
        subst he32
        rw [← hpair.1, ← hpair.2]
        exact ((hbounds2 e3 rfl).1 rfl)
  · intro hlen
    unfold DemeGraph.symmetric_migration
    rw [if_pos hlen]

/-- Witness for C6: a migration over A = [0, 10] and B = [0, inf) with
start 5 and end 8 appends the start record and the zero-rate end
record, both times lying in the coexistence window. -/
theorem c6_migration_witness :
    ∃ lo hi, gA10B.check_time_intersection "A" "B" none false = .ok (lo, hi)
      ∧ (gA10B.migration "A" "B" 1 (some ((5:ℚ):V)) (some ((8:ℚ):V))).2.migrations =
          gA10B.migrations ++ (⟨"A", "B", (some ((5:ℚ):V)).getD lo, 1⟩ ::
            [⟨"A", "B", ((8:ℚ):V), 0⟩])
      ∧ (∀ t0, (some ((5:ℚ):V)) = some t0 → lo ≤ t0 ∧ t0 < hi)
      ∧ (∀ e2, (some ((8:ℚ):V) : Option V) = some e2 → lo ≤ e2 ∧ e2 < hi) :=
  (c6_migration_spec gA10B "A" "B" 1 (some ((5:ℚ):V)) (some ((8:ℚ):V)) []).2.1
    (gA10B.migration "A" "B" 1 (some ((5:ℚ):V)) (some ((8:ℚ):V))).2 (by decide)



/-- The non-negativity validator only raises ValueError. -/
lemma checkNonNegative_err (n : String) (v : V) (e : Err)
    (h : checkNonNegative n v = .error e) : e ≠ .assertionError := by
  unfold checkNonNegative at h
  split at h
  · simp only [Except.error.injEq] at h
    rw [← h]
    simp
  · exact absurd h (by simp)

/-- The finiteness validator only raises ValueError. -/
lemma checkFinite_err (n : String) (v : V) (e : Err)
    (h : checkFinite n v = .error e) : e ≠ .assertionError := by
  unfold checkFinite at h
  split at h
  · simp only [Except.error.injEq] at h
    rw [← h]
    simp
  · exact absurd h (by simp)

/-- The positivity validator only raises ValueError. -/
lemma checkPositive_err (n : String) (v : V) (e : Err)
    (h : checkPositive n v = .error e) : e ≠ .assertionError := by
  unfold checkPositive at h
  split at h
  · simp only [Except.error.injEq] at h
    rw [← h]
    simp
  · exact absurd h (by simp)

/-- The unit-interval validator only raises ValueError. -/
lemma checkUnitInterval_err (n : String) (v : ℚ) (e : Err)
    (h : checkUnitInterval n v = .error e) : e ≠ .assertionError := by
  unfold checkUnitInterval at h
  split at h
  · exact absurd h (by simp)
  · simp only [Except.error.injEq] at h
    rw [← h]
    simp

/-- The optional non-negativity validator only raises ValueError. -/
lemma checkOptNonNegative_err (n : String) (v : Option V) (e : Err)
    (h : checkOptNonNegative n v = .error e) : e ≠ .assertionError := by
  unfold checkOptNonNegative at h
  cases v with
  | none => simp at h
  | some x => exact checkNonNegative_err n x e h

/-- The optional size validator only raises ValueError. -/
lemma checkOptSize_err (n : String) (v : Option V) (e : Err)
    (h : checkOptSize n v = .error e) : e ≠ .assertionError := by
  unfold checkOptSize at h
  cases v with
  | none => simp at h
  | some x =>
    simp only [] at h
    cases h0 : checkPositive n x <;> rw [h0] at h
    · simp only [Except.error.injEq] at h
      rw [← h]
      exact checkPositive_err n x _ h0
    · exact checkFinite_err n x e h

/-- Epoch construction never raises AssertionError. -/
lemma epochMake_err (st : V) (et isz fsz : Option V) (e : Err)
    (h : Epoch.make st et isz fsz = .error e) : e ≠ .assertionError := by
  unfold Epoch.make at h
  cases h0 : checkNonNegative "start_time" st <;> rw [h0] at h
  case error e0 =>
    simp only [Except.error.injEq] at h
    rw [← h]
    exact checkNonNegative_err _ _ _ h0
  cases h1 : checkFinite "start_time" st <;> rw [h1] at h
  case error e0 =>
    simp only [Except.error.injEq] at h
    rw [← h]
    exact checkFinite_err _ _ _ h1
  cases h2 : checkOptNonNegative "end_time" et <;> rw [h2] at h
  case error e0 =>
    simp only [Except.error.injEq] at h
    rw [← h]
    exact checkOptNonNegative_err _ _ _ h2
  cases h3 : checkOptSize "initial_size" isz <;> rw [h3] at h
  case error e0 =>
    simp only [Except.error.injEq] at h
    rw [← h]
    exact checkOptSize_err _ _ _ h3
  cases h4 : checkOptSize "final_size" fsz <;> rw [h4] at h
  case error e0 =>
    simp only [Except.error.injEq] at h
    rw [← h]
    exact checkOptSize_err _ _ _ h4
  dsimp only at h
  by_cases hz : isz = none ∧ fsz = none
  · rw [if_pos hz] at h
    simp only [Except.error.injEq] at h
    simp [← h]
  · rw [if_neg hz] at h
    cases et with
    | some e0 =>
      by_cases hse : e0 ≤ st
      · simp [hse] at h
        simp [← h]
      · simp [hse] at h
    | none => simp at h

/-- Deme construction never raises AssertionError. -/
lemma demeMake_err (id : String) (anc : Option String) (epochs : List Epoch)
    (e : Err) (h : Deme.make id anc epochs = .error e) : e ≠ .assertionError := by
  unfold Deme.make at h
  split at h
  · simp only [Except.error.injEq] at h
    rw [← h]
    simp
  split at h
  · simp only [Except.error.injEq] at h
    rw [← h]
    simp
  exact absurd h (by simp)

/-- The intersection check never raises AssertionError. -/
lemma check_err (g : DemeGraph) (i1 i2 : String) (t : Option V) (c : Bool)
    (e : Err) (h : g.check_time_intersection i1 i2 t c = .error e) :
    e ≠ .assertionError := by
  unfold DemeGraph.check_time_intersection at h
  cases hf1 : g.find? i1 <;> rw [hf1] at h
  · simp only [Except.error.injEq] at h
    simp [← h]
  case some d1 =>
  simp only [] at h
  cases hf2 : g.find? i2 <;> rw [hf2] at h
  · simp only [Except.error.injEq] at h
    simp [← h]
  case some d2 =>
  simp only [] at h
  cases he1 : d1.end_time <;> rw [he1] at h
  case none =>
    cases he2 : d2.end_time <;> rw [he2] at h <;>
      (simp only [Except.error.injEq] at h; simp [← h])
  case some e1 =>
  cases he2 : d2.end_time <;> rw [he2] at h
  · simp only [Except.error.injEq] at h
    simp [← h]
  case some e2 =>
  simp only [] at h
  cases t with
  | none => simp at h
  | some t0 =>
    simp only [] at h
    split at h
    · simp only [Except.error.injEq] at h
      simp [← h]
    · simp at h

/-- Pulse construction never raises AssertionError. -/
lemma pulseMake_err (s d : String) (t : V) (pr : ℚ) (e : Err)
    (h : Pulse.make s d t pr = .error e) : e ≠ .assertionError := by
  unfold Pulse.make at h
  cases h0 : checkNonNegative "time" t <;> rw [h0] at h
  case error e0 =>
    simp only [Except.error.injEq] at h
    rw [← h]
    exact checkNonNegative_err _ _ _ h0
  cases h1 : checkFinite "time" t <;> rw [h1] at h
  case error e0 =>
    simp only [Except.error.injEq] at h
    rw [← h]
    exact checkFinite_err _ _ _ h1
  cases h2 : checkUnitInterval "proportion" pr <;> rw [h2] at h
  case error e0 =>
    simp only [Except.error.injEq] at h
    rw [← h]
    exact checkUnitInterval_err _ _ _ h2
  dsimp only at h
  split at h
  · simp only [Except.error.injEq] at h
    rw [← h]
    simp
  · exact absurd h (by simp)

/-- The pulse builder never raises AssertionError. -/
lemma pulse_err (g : DemeGraph) (s d : String) (pr : ℚ) (t : V) (e : Err)
    (h : (g.pulse s d pr t).1 = .error e) : e ≠ .assertionError := by
  unfold DemeGraph.pulse at h
  cases hA : g.pulseAux s d pr t <;> rw [hA] at h
  case error e0 =>
    simp only [] at h
    simp only [Except.error.injEq] at h
    rw [← h]
    unfold DemeGraph.pulseAux at hA
    split at hA
    · simp only [Except.error.injEq] at hA
      rw [← hA]
      simp
    split at hA
    · simp only [Except.error.injEq] at hA
      rw [← hA]
      simp
    split at hA
    · simp only [Except.error.injEq] at hA
      rw [← hA]
      simp
    cases hc : g.check_time_intersection s d (some t) true <;> rw [hc] at hA
    · simp only [Except.error.injEq] at hA
      rw [← hA]
      exact check_err _ _ _ _ _ _ hc
    · exact pulseMake_err _ _ _ _ _ hA
  · simp at h


/-- On a non-empty deme, add_epoch never raises AssertionError. -/
lemma add_epoch_err (d : Deme) (ep : Epoch) (e : Err) (hne : d.epochs ≠ [])
    (h : d.add_epoch ep = .error e) : e ≠ .assertionError := by
  unfold Deme.add_epoch at h
  cases hL : d.epochs.getLast? <;> rw [hL] at h
  case none =>
    exact absurd (List.getLast?_eq_none_iff.mp hL) hne
  case some prev =>
  simp only [] at h
  by_cases hlt : ep.start_time < prev.start_time
  · rw [if_pos hlt] at h
    simp only [Except.error.injEq] at h
    rw [← h]
    simp
  · rw [if_neg hlt] at h
    exact absurd h (by simp)

/-- A successful add_epoch leaves the epoch list non-empty. -/
lemma add_epoch_ok_nonempty (d : Deme) (ep : Epoch) (d2 : Deme)
    (h : d.add_epoch ep = .ok d2) : d2.epochs ≠ [] := by
  unfold Deme.add_epoch at h
  cases hL : d.epochs.getLast? <;> rw [hL] at h
  · simp at h
  case some prev =>
  simp only [] at h
  by_cases hlt : ep.start_time < prev.start_time
  · rw [if_pos hlt] at h
    simp at h
  · rw [if_neg hlt] at h
    simp only [Except.ok.injEq] at h
    rw [← h]
    simp

/-- A chain of add_epoch calls on a non-empty deme never raises
AssertionError. -/
lemma foldlM_add_epoch_err (eps : List Epoch) : ∀ (d0 : Deme) (e : Err),
    d0.epochs ≠ [] → eps.foldlM Deme.add_epoch d0 = .error e →
    e ≠ .assertionError := by
  induction eps with
  | nil =>
    intro d0 e _ h
    have h2 : (Except.ok d0 : Except Err Deme) = Except.error e := h
    simp at h2
  | cons ep rest ih =>
    intro d0 e hne h
    rw [List.foldlM_cons] at h
    cases hA : d0.add_epoch ep <;> rw [hA] at h
    case error err =>
      have h2 : (Except.error err : Except Err Deme) = Except.error e := h
      simp only [Except.error.injEq] at h2
      rw [← h2]
      exact add_epoch_err d0 ep err hne hA
    case ok d1 =>
      have h2 : rest.foldlM Deme.add_epoch d1 = Except.error e := h
      exact ih d1 e (add_epoch_ok_nonempty d0 ep d1 hA) h2

/-- The ancestor end-time resolution never raises AssertionError. -/
lemma demeResolveEnd_err (g : DemeGraph) (anc : Option String) (et : V) (e : Err)
    (h : demeResolveEnd g anc et = .error e) : e ≠ .assertionError := by
  unfold demeResolveEnd at h
  cases anc with
  | none => simp at h
  | some a =>
    simp only [] at h
    cases hf : g.find? a <;> rw [hf] at h
    · simp only [Except.error.injEq] at h
      rw [← h]
      simp
    · simp at h

/-- The deme builder never raises AssertionError: its only asserting
component, add_epoch, always starts from the one-epoch deme. -/
lemma deme_err (g : DemeGraph) (id : String) (anc : Option String)
    (st et : V) (isz fsz : Option V) (eps : Option (List Epoch)) (e : Err)
    (h : (g.deme id anc st et isz fsz eps).1 = .error e) : e ≠ .assertionError := by
  unfold DemeGraph.deme at h
  cases hA : g.demeAux id anc st et isz fsz eps <;> rw [hA] at h
  case ok d => simp at h
  case error e0 =>
  simp only [] at h
  simp only [Except.error.injEq] at h
  rw [← h]
  unfold DemeGraph.demeAux at hA
  cases hi : resolveNe isz g.default_Ne <;> rw [hi] at hA
  case none =>
    simp only [Except.error.injEq] at hA
    rw [← hA]
    simp
  case some iszr =>
  simp only [] at hA
  cases ha : demeResolveEnd g anc et <;> rw [ha] at hA
  case error e1 =>
    simp only [Except.error.injEq] at hA
    rw [← hA]
    exact demeResolveEnd_err g anc et e1 ha
  case ok et2 =>
  simp only [] at hA
  cases hep : Epoch.make st (some et2) (some iszr) (orDefault fsz iszr) <;> rw [hep] at hA
  case error e1 =>
    simp only [Except.error.injEq] at hA
    rw [← hA]
    exact epochMake_err st (some et2) (some iszr) (orDefault fsz iszr) e1 hep
  case ok ep =>
  simp only [] at hA
  cases hdm : Deme.make id anc [ep] <;> rw [hdm] at hA
  case error e1 =>
    simp only [Except.error.injEq] at hA
    rw [← hA]
    exact demeMake_err id anc [ep] e1 hdm
  case ok d0 =>
  simp only [] at hA
  unfold demeAddEpochs at hA
  cases eps with
  | none => simp at hA
  | some l =>
    have hne : d0.epochs ≠ [] := by
      rw [demeMake_ok_inv id anc [ep] d0 hdm]
      simp
    exact foldlM_add_epoch_err l d0 e0 hne hA

/-- The subgraph end-time resolution never raises AssertionError. -/
lemma subgraphEndTime_err (g : DemeGraph) (ancestors : List String)
    (eto : Option V) (e : Err) (h : g.subgraphEndTime ancestors eto = .error e) :
    e ≠ .assertionError := by
  unfold DemeGraph.subgraphEndTime at h
  cases eto with
  | some t => simp at h
  | none =>
    cases hm : ancestors.mapM g.find? <;> rw [hm] at h
    · simp only [Except.error.injEq] at h
      rw [← h]
      simp
    case some l =>
    cases l with
    | nil =>
      simp only [Except.error.injEq] at h
      rw [← h]
      simp
    | cons d ds => simp at h

/-- A successful pulse call appends exactly the one record built from
its arguments. -/
lemma pulse_ok_state (g : DemeGraph) (s d : String) (pr : ℚ) (t : V) (g2 : DemeGraph)
    (h : g.pulse s d pr t = (.ok (), g2)) :
    g2 = { g with pulses := g.pulses ++ [⟨s, d, t, pr⟩] } := by
  unfold DemeGraph.pulse at h
  cases hA : g.pulseAux s d pr t <;> rw [hA] at h
  · simp at h
  case ok p =>
  obtain ⟨hp, _, _⟩ := pulseAux_ok_inv g s d pr t p hA
  simp only [Prod.mk.injEq] at h
  rw [← h.2, hp]

/-- The deme builder never touches the pulses list. -/
lemma deme_pulses (g : DemeGraph) (id : String) (anc : Option String)
    (st et : V) (isz fsz : Option V) (eps : Option (List Epoch)) :
    ((g.deme id anc st et isz fsz eps).2).pulses = g.pulses := by
  unfold DemeGraph.deme
  cases hA : g.demeAux id anc st et isz fsz eps <;> rfl


/-- An empty proportions list (sum 0) fails the isclose(sum, 1) guard. -/
lemma not_isclose_zero_one : ¬ isclose 0 1 := by
  with_unfolding_all decide

/-- The last proportion of a cons, with a default for the empty tail. -/
lemma optLast_cons (p : Pulse) (l : List Pulse) (q : ℚ) :
    ((p :: l).getLast?.map Pulse.proportion).getD q =
      (l.getLast?.map Pulse.proportion).getD p.proportion := by
  cases l with
  | nil => rfl
  | cons b bs =>
    rw [List.getLast?_cons_cons]
    have hsome : (b :: bs).getLast?.isSome := List.getLast?_isSome.mpr (by simp)
    obtain ⟨x, hx⟩ := Option.isSome_iff_exists.mp hsome
    rw [hx]
    rfl

/-- The subgraph pulse loop never fails its trailing assertion: when it
reaches the end of the ancestor list, the proportion computed for the
last ancestor was a nonzero value divided by itself, hence exactly 1. -/
lemma subgraphLoop_ne_assert (id0 : String) (t : V) :
    ∀ (ancs : List String) (ps : List ℚ) (lastp : ℚ) (g : DemeGraph),
    (ancs = [] → lastp = 1) → ps.length = ancs.length →
    (subgraphLoop id0 t ancs ps lastp g).1 ≠ .error .assertionError := by
  intro ancs
  induction ancs with
  | nil =>
    intro ps lastp g h1 _
    unfold subgraphLoop
    rw [if_pos (h1 rfl)]
    simp
  | cons a ancs2 ih =>
    intro ps lastp g _ hlen
    cases ps with
    | nil => simp at hlen
    | cons p0 ps2 =>
      unfold subgraphLoop
      by_cases hs : p0 + ps2.sum = 0
      · rw [if_pos hs]
        simp
      · rw [if_neg hs]
        cases hp : g.pulse id0 a (p0 / (p0 + ps2.sum)) t with
        | mk res g1 =>
        cases res with
        | ok u =>
          simp only []
          apply ih
          · intro hnil
            subst hnil
            have hps2 : ps2 = [] := by
              simpa using hlen
            subst hps2
            simp only [List.sum_nil, add_zero] at hs ⊢
            exact div_self hs
          · simpa using hlen
        | error e =>
          simp only []
          intro habs
          simp only [Except.error.injEq] at habs
          have h1 : (g.pulse id0 a (p0 / (p0 + ps2.sum)) t).1 = .error e := by
            rw [hp]
          exact pulse_err g id0 a (p0 / (p0 + ps2.sum)) t e h1 (by rw [habs])

/-- A completed subgraph pulse loop appended exactly the renormalized
pulses, and the last computed proportion (the assert operand) is 1. -/
lemma subgraphLoop_ok (id0 : String) (t : V) :
    ∀ (ancs : List String) (ps : List ℚ) (lastp : ℚ) (g g2 : DemeGraph),
    subgraphLoop id0 t ancs ps lastp g = (.ok (), g2) →
    g2.pulses = g.pulses ++ pulsesOf id0 t ancs ps
    ∧ ((pulsesOf id0 t ancs ps).getLast?.map Pulse.proportion).getD lastp = 1 := by
  intro ancs
  induction ancs with
  | nil =>
    intro ps lastp g g2 h
    unfold subgraphLoop at h
    by_cases hl : lastp = 1
    · rw [if_pos hl] at h
      simp only [Prod.mk.injEq] at h
      rw [← h.2]
      unfold pulsesOf
      simp [hl]
    · rw [if_neg hl] at h
      simp at h
  | cons a ancs2 ih =>
    intro ps lastp g g2 h
    cases ps with
    | nil =>
      unfold subgraphLoop at h
      simp at h
    | cons p0 ps2 =>
      unfold subgraphLoop at h
      by_cases hs : p0 + ps2.sum = 0
      · rw [if_pos hs] at h
        simp at h
      · rw [if_neg hs] at h
        cases hp : g.pulse id0 a (p0 / (p0 + ps2.sum)) t with
        | mk res g1 =>
        rw [hp] at h
        cases res with
        | error e => simp at h
        | ok u =>
        simp only [] at h
        obtain ⟨hp1, hp2⟩ := ih ps2 (p0 / (p0 + ps2.sum)) g1 g2 h
        have hg1 : g1 = { g with pulses := g.pulses ++ [⟨id0, a, t, p0 / (p0 + ps2.sum)⟩] } := by
          apply pulse_ok_state
          rw [hp]
        have hcons : pulsesOf id0 t (a :: ancs2) (p0 :: ps2) =
            ⟨id0, a, t, p0 / (p0 + ps2.sum)⟩ :: pulsesOf id0 t ancs2 ps2 := rfl
        constructor
        · rw [hp1, hg1, hcons]
          simp
        · rw [hcons, optLast_cons]
          exact hp2


/-- The j-th emitted pulse carries the j-th proportion renormalized by
the sum of the proportions from j on. -/
lemma pulsesOf_get (id0 : String) (t : V) :
    ∀ (ancs : List String) (ps : List ℚ) (j : ℕ), j < ancs.length →
    ancs.length = ps.length →
    (pulsesOf id0 t ancs ps)[j]? =
      some ⟨id0, ancs.getD j "", t, (ps.getD j 0) / ((ps.drop j).sum)⟩ := by
  intro ancs
  induction ancs with
  | nil =>
    intro ps j hj _
    simp at hj
  | cons a ancs2 ih =>
    intro ps j hj hlen
    cases ps with
    | nil => simp at hlen
    | cons p0 ps2 =>
      have hcons : pulsesOf id0 t (a :: ancs2) (p0 :: ps2) =
          ⟨id0, a, t, p0 / (p0 + ps2.sum)⟩ :: pulsesOf id0 t ancs2 ps2 := rfl
      cases j with
      | zero =>
        rw [hcons]
        simp [List.sum_cons]
      | succ j2 =>
        rw [hcons]
        simp only [List.getElem?_cons_succ, List.getD_cons_succ, List.drop_succ_cons]
        apply ih
        · exact Nat.succ_lt_succ_iff.mp hj
        · exact Nat.succ_injective hlen

/-- C8 amended: the trailing consistency assertion of subgraph never
fails on any input (reaching it forces the last renormalized proportion
to be a nonzero value divided by itself); a successful subgraph call
with an explicit end time appends exactly the renormalized pulses, the
last of which has proportion exactly 1; and the pulse emitted for
ancestor j carries proportion proportions[j] / sum(proportions[j:]).
When a suffix of the proportions sums to zero the call instead dies
with ZeroDivisionError before the final proportion exists (see the
counterexample), which is the corrected part of the claim. -/
theorem c8_subgraph_spec (g : DemeGraph) (id0 : String) (ancestors : List String)
    (proportions : List ℚ) (st : V) (eto : Option V) (t : V)
    (isz fsz : Option V) (eps : Option (List Epoch)) :
    ((g.subgraph id0 ancestors proportions st eto isz fsz eps).1 ≠ .error .assertionError)
    ∧ (∀ g2, g.subgraph id0 ancestors proportions st (some t) isz fsz eps = (.ok (), g2) →
        g2.pulses = g.pulses ++ pulsesOf id0 t ancestors proportions
        ∧ (pulsesOf id0 t ancestors proportions).getLast?.map Pulse.proportion = some 1)
    ∧ (∀ j, j < ancestors.length → ancestors.length = proportions.length →
        (pulsesOf id0 t ancestors proportions)[j]? =
          some ⟨id0, ancestors.getD j "", t,
            (proportions.getD j 0) / ((proportions.drop j).sum)⟩) := by
  refine ⟨?_, ?_, fun j hj hlen => pulsesOf_get id0 t ancestors proportions j hj hlen⟩
  · unfold DemeGraph.subgraph
    by_cases hlen : ancestors.length ≠ proportions.length
    · rw [if_pos hlen]
      simp
    · rw [if_neg hlen]
      by_cases hsum : ¬ isclose proportions.sum 1
      · rw [if_pos hsum]
        simp
      · rw [if_neg hsum]
        cases hse : g.subgraphEndTime ancestors eto with
        | error e =>
          simp only []
          intro habs
          simp only [Except.error.injEq] at habs
          exact subgraphEndTime_err g ancestors eto e hse (by rw [habs])
        | ok t2 =>
          simp only []
          cases hdm : g.deme id0 none st t2 isz fsz eps with
          | mk res g1 =>
          cases res with
          | error e =>
            simp only []
            intro habs
            simp only [Except.error.injEq] at habs
            have h1 : (g.deme id0 none st t2 isz fsz eps).1 = .error e := by
              rw [hdm]
            exact deme_err g id0 none st t2 isz fsz eps e h1 (by rw [habs])
          | ok u =>
            simp only []
            apply subgraphLoop_ne_assert
            · intro hnil
              exfalso
              have hl2 : ancestors.length = proportions.length := not_ne_iff.mp hlen
              subst hnil
              have hp0 : proportions = [] := by
                simpa using hl2.symm
              subst hp0
              exact not_isclose_zero_one (by simpa using not_not.mp hsum)
            · exact (not_ne_iff.mp hlen).symm
  · intro g2 h
    unfold DemeGraph.subgraph at h
    by_cases hlen : ancestors.length ≠ proportions.length
    · rw [if_pos hlen] at h
      simp at h
    rw [if_neg hlen] at h
    by_cases hsum : ¬ isclose proportions.sum 1
    · rw [if_pos hsum] at h
      simp at h
    rw [if_neg hsum] at h
    have hse : g.subgraphEndTime ancestors (some t) = .ok t := rfl
    rw [hse] at h
    simp only [] at h
    cases hdm : g.deme id0 none st t isz fsz eps with
    | mk res g1 =>
    rw [hdm] at h
    cases res with
    | error e => simp at h
    | ok u =>
    simp only [] at h
    obtain ⟨hp1, hp2⟩ := subgraphLoop_ok id0 t ancestors proportions 0 g1 g2 h
    have hg1p : g1.pulses = g.pulses := by
      have h2 := deme_pulses g id0 none st t isz fsz eps
      rw [hdm] at h2
      exact h2
    constructor
    · rw [hp1, hg1p]
    · cases hgl : (pulsesOf id0 t ancestors proportions).getLast? with
      | none =>
        rw [hgl] at hp2
        simp at hp2
      | some q =>
        rw [hgl] at hp2
        simp at hp2
        simp [hp2]

/-- Witness for C8: a successful subgraph over ancestors B and C with
proportions one half each emits the two renormalized pulses, the last
with proportion exactly 1. -/
theorem c8_subgraph_witness :
    (gBC.subgraph "X" ["B", "C"] [1/2, 1/2] 0 (some ((100:ℚ):V)) (some 1) none none).2.pulses =
      gBC.pulses ++ pulsesOf "X" ((100:ℚ):V) ["B", "C"] [1/2, 1/2]
    ∧ (pulsesOf "X" ((100:ℚ):V) ["B", "C"] [1/2, 1/2]).getLast?.map Pulse.proportion =
      some 1 :=
  (c8_subgraph_spec gBC "X" ["B", "C"] [1/2, 1/2] 0 (some ((100:ℚ):V)) ((100:ℚ):V)
      (some 1) none none).2.1
    (gBC.subgraph "X" ["B", "C"] [1/2, 1/2] 0 (some ((100:ℚ):V)) (some 1) none none).2
    (by with_unfolding_all decide)



/-- C9: for every non-first epoch of a deme, the emitted compact entry
has start_time iff the epoch's start time is nonzero, only initial_size
when the size is constant across the epoch, and otherwise final_size
plus initial_size exactly when the epoch is first or last in the list
or its initial size differs from the previous epoch's final size. -/
theorem c9_epoch_emission_spec (d : Deme) (j : ℕ) (e : Epoch)
    (hj : d.epochs[j+1]? = some e) (hnn : 0 ≤ e.start_time) :
    ∃ entry, (asdictCompactEpochs d)[j]? = some entry
    ∧ entry.start_time = (if e.start_time = 0 then none else some e.start_time)
    ∧ (e.initial_size = e.final_size →
        entry.initial_size = some e.initial_size ∧ entry.final_size = none)
    ∧ (e.initial_size ≠ e.final_size →
        entry.final_size = some e.final_size
        ∧ entry.initial_size =
            (if j + 1 = 0 ∨ j + 1 = d.epochs.length - 1 ∨
               e.initial_size ≠ (d.epochs.getD j defaultEpoch).final_size
             then some e.initial_size else none)) := by
  have hlt : j + 1 < d.epochs.length := (List.getElem?_eq_some_iff.mp hj).1
  have hgetD : d.epochs.getD (j+1) defaultEpoch = e := by
    rw [List.getD_eq_getElem?_getD, hj]
    rfl
  have hentry : (asdictCompactEpochs d)[j]? =
      some (epochEntry d.epochs (j+1) e) := by
    unfold asdictCompactEpochs
    rw [List.getElem?_drop, List.getElem?_map, Nat.add_comm 1 j,
      List.getElem?_range hlt]
    simp only [Option.map]
    rw [hgetD]
  refine ⟨epochEntry d.epochs (j+1) e, hentry, ?_, ?_, ?_⟩
  · unfold epochEntry
    dsimp only
    rcases eq_or_lt_of_le hnn with heq | hlt2
    · rw [if_neg (by rw [← heq]; exact lt_irrefl 0), if_pos heq.symm]
    · rw [if_pos hlt2, if_neg (by
        intro habs
        rw [habs] at hlt2
        exact lt_irrefl 0 hlt2)]
  · intro hEq
    unfold epochEntry
    dsimp only
    rw [if_pos hEq, if_pos hEq]
    exact ⟨rfl, rfl⟩
  · intro hNe
    unfold epochEntry
    dsimp only
    rw [if_neg hNe, if_neg hNe]
    refine ⟨rfl, ?_⟩
    simp only [Nat.add_sub_cancel]

/-- Witness for C9: the third epoch of dCompact (index 2, entry index
1) has changing size 4 to 5 and is last in the list, so its entry emits
start_time 20, final_size 5 and initial_size 4. -/
theorem c9_epoch_emission_witness :
    ∃ entry, (asdictCompactEpochs dCompact)[1]? = some entry
    ∧ entry.start_time =
        (if (⟨((20:ℚ):V), some ⊤, some 4, some 5⟩ : Epoch).start_time = 0 then none
         else some (⟨((20:ℚ):V), some ⊤, some 4, some 5⟩ : Epoch).start_time)
    ∧ ((⟨((20:ℚ):V), some ⊤, some 4, some 5⟩ : Epoch).initial_size =
        (⟨((20:ℚ):V), some ⊤, some 4, some 5⟩ : Epoch).final_size →
        entry.initial_size = some (some ((4:ℚ):V)) ∧ entry.final_size = none)
    ∧ ((⟨((20:ℚ):V), some ⊤, some 4, some 5⟩ : Epoch).initial_size ≠
        (⟨((20:ℚ):V), some ⊤, some 4, some 5⟩ : Epoch).final_size →
        entry.final_size = some (some ((5:ℚ):V))
        ∧ entry.initial_size =
            (if 1 + 1 = 0 ∨ 1 + 1 = dCompact.epochs.length - 1 ∨
               (⟨((20:ℚ):V), some ⊤, some 4, some 5⟩ : Epoch).initial_size ≠
                 (dCompact.epochs.getD 1 defaultEpoch).final_size
             then some (⟨((20:ℚ):V), some ⊤, some 4, some 5⟩ : Epoch).initial_size
             else none)) :=
  c9_epoch_emission_spec dCompact 1 ⟨((20:ℚ):V), some ⊤, some 4, some 5⟩
    (by decide) (by decide)

end Demes
